import Mathlib

/-!
Verification of the dataset category registry (`DatasetCategories`) and its merge
function from `deepdoctection/datasets/info.py`.

Python dicts are modelled as association lists kept in insertion order: insertion
overwrites the value in place when the key is already present and appends
otherwise, lookup returns the value of the first matching key, and iteration
walks the list from the front.  Python exceptions (`AssertionError`, `KeyError`,
`IndexError`) are modelled by an `Except` result with an explicit error type.
-/

namespace DeepDoctection

/-- Insertion into a Python dict: overwrite in place if the key exists, else append. -/
def pyInsert [DecidableEq α] (d : List (α × β)) (k : α) (v : β) : List (α × β) :=
  match d with
  | [] => [(k, v)]
  | (k', v') :: rest => if k' = k then (k, v) :: rest else (k', v') :: pyInsert rest k v

/-- Lookup in a Python dict (`dict.get`): value of the first matching key. -/
def pyGet [DecidableEq α] (d : List (α × β)) (k : α) : Option β :=
  match d with
  | [] => none
  | (k', v) :: rest => if k' = k then some v else pyGet rest k

/-- Keys of a Python dict, in insertion order. -/
def pyKeys (d : List (α × β)) : List α :=
  d.map Prod.fst

/-- A Python dict built from a sequence of key/value pairs (dict comprehension). -/
def pyDictOfPairs [DecidableEq α] (ps : List (α × β)) : List (α × β) :=
  ps.foldl (fun d p => pyInsert d p.1 p.2) []

/-- One step of the `if label not in acc: acc.append(label)` idiom. -/
def addIfAbsent [DecidableEq α] (acc : List α) (x : α) : List α :=
  if x ∈ acc then acc else acc ++ [x]

/-- Python `str` on a natural number. -/
def pyStr (n : Nat) : String :=
  Nat.repr n

/-- Sub-category dict of one category: sub-category key to its ordered value list. -/
abbrev SubCatDict := List (String × List String)

/-- The `init_sub_categories` mapping: category name to its sub-category dict. -/
abbrev SubCats := List (String × SubCatDict)

/-- State of a `DatasetCategories` registry.  The optional
`categories_filter_update` models the `hasattr` check on the
`_categories_filter_update` attribute: `none` means the attribute was never set. -/
structure DatasetCategories where
  init_categories : List String
  init_sub_categories : SubCats
  categories_update : List String
  cat_to_sub_cat : Option (List (String × String))
  categories_filter_update : Option (List String)
deriving DecidableEq

/-- Construction of a registry (dataclass init followed by `__post_init__`):
no validation is performed; `_categories_update` is set to `init_categories`
and `_cat_to_sub_cat` to `None`. -/
def mkDatasetCategories (ic : List String) (isc : SubCats) : DatasetCategories :=
  { init_categories := ic
    init_sub_categories := isc
    categories_update := ic
    cat_to_sub_cat := none
    categories_filter_update := none }

/-- The helper `_get_dict`: converts a list into a dict keyed by 1-based indices
rendered with `str`, or with names as keys when `name_as_key` is true. -/
def get_dict (l : List String) (name_as_key : Bool) (starts_with : Nat) :
    List (String × String) :=
  let pairs := (List.range' starts_with l.length).zip l
  if name_as_key then
    pyDictOfPairs (pairs.map (fun p => (p.2, pyStr p.1)))
  else
    pyDictOfPairs (pairs.map (fun p => (pyStr p.1, p.2)))

/-- `get_categories` with `as_dict=False`: selects between the initial, filtered
and current category lists. -/
def getCategoriesList (r : DatasetCategories) (init filtered : Bool) : List String :=
  if init then r.init_categories
  else if filtered then
    match r.categories_filter_update with
    | some f => f
    | none => r.categories_update
  else r.categories_update

/-- `get_categories` with `as_dict=True`: the selected list converted by `_get_dict`. -/
def getCategoriesDict (r : DatasetCategories) (name_as_key init filtered : Bool) :
    List (String × String) :=
  get_dict (getCategoriesList r init filtered) name_as_key 1

/-- `set_cat_to_sub_cat`: resets `categories_update` to `init_categories`, then for
each key of the name-keyed category dict substitutes
`init_sub_categories.get(cat, {cat: [cat]}).get(cat_to_sub_cat.get(cat, cat), [cat])`,
stores the mapping and flattens the per-category blocks. -/
def set_cat_to_sub_cat (r : DatasetCategories) (m : List (String × String)) :
    DatasetCategories :=
  let r1 : DatasetCategories := { r with categories_update := r.init_categories }
  let categories := getCategoriesDict r1 true false false
  let cats_or_sub_cats := (pyKeys categories).map (fun cat =>
    (pyGet ((pyGet r1.init_sub_categories cat).getD [(cat, [cat])])
      ((pyGet m cat).getD cat)).getD [cat])
  { r1 with cat_to_sub_cat := some m, categories_update := cats_or_sub_cats.flatten }

/-- `filter_categories`: stores the subsequence of the current `categories_update`
whose names occur in the request. -/
def filter_categories (r : DatasetCategories) (cats : List String) : DatasetCategories :=
  { r with
    categories_filter_update := some (r.categories_update.filter (fun c => decide (c ∈ cats))) }

/-- `filter_categories` called with a single string (the `isinstance(str)` branch). -/
def filter_categories_str (r : DatasetCategories) (cat : String) : DatasetCategories :=
  filter_categories r [cat]

/-- `is_filtered`: whether the `_categories_filter_update` attribute has ever been set. -/
def is_filtered (r : DatasetCategories) : Bool :=
  r.categories_filter_update.isSome

/-- `is_cat_to_sub_cat`: whether a substitution mapping is stored. -/
def is_cat_to_sub_cat (r : DatasetCategories) : Bool :=
  r.cat_to_sub_cat.isSome

/-- Python runtime errors surfaced by this module. -/
inductive PyError where
  | assertionError (msg : String)
  | keyError (key : String)
  | indexError
  | invalidRequestError
deriving DecidableEq

/-- Inner loop of `get_sub_categories` for one requested name under an active
substitution: iterate over the `cat_to_sub_cat` items; `init_sub_categories[key]`
raises `KeyError` when the key is absent, and whenever the chosen value equals one
of that category's sub-category keys the result entry for the requested name is
overwritten with `init_sub_categories[key].get(cat)` (empty list when absent). -/
def innerScan (r : DatasetCategories) (cat : String) :
    List (String × String) → List (String × List String) →
      Except PyError (List (String × List String))
  | [], acc => .ok acc
  | kv :: rest, acc =>
    match pyGet r.init_sub_categories kv.1 with
    | none => .error (.keyError kv.1)
    | some possible =>
      innerScan r cat rest ((pyKeys possible).foldl (fun a2 pos =>
        if pos = kv.2 then pyInsert a2 cat ((pyGet possible cat).getD []) else a2) acc)

/-- Main loop of `get_sub_categories`: for each requested name, assert membership in
the current (filtered) view, then either record the name's own sub-category keys or,
when a substitution mapping is stored, run the inner scan. -/
def subCatLoop (r : DatasetCategories) :
    List String → List (String × List String) →
      Except PyError (List (String × List String))
  | [], acc => .ok acc
  | cat :: rest, acc =>
    if cat ∈ getCategoriesList r false true then
      match pyGet r.init_sub_categories cat with
      | some d => subCatLoop r rest (pyInsert acc cat (pyKeys d))
      | none =>
        match r.cat_to_sub_cat with
        | some m =>
          match innerScan r cat m acc with
          | .ok acc' => subCatLoop r rest acc'
          | .error e => .error e
        | none => subCatLoop r rest acc
    else
      .error (.assertionError
        (cat ++ " not in categories, maybe has been replaced with sub category"))

/-- `get_sub_categories` on an explicit list of requested names. -/
def get_sub_categories (r : DatasetCategories) (cats : List String) :
    Except PyError (List (String × List String)) :=
  subCatLoop r cats []

/-- Union of per-key sub-category value lists over all inputs (`set` union rendered
as first-occurrence deduplication of the concatenation; Python leaves the order
unspecified). -/
def unionVals (all : List DatasetCategories) (key sub_cat_key : String) : List String :=
  (all.flatMap (fun c =>
    (pyGet ((pyGet c.init_sub_categories key).getD []) sub_cat_key).getD [])).foldl
    addIfAbsent []

/-- Per-category-key body of the merge: the intersection over all inputs of the
sub-category-key sets of `key`'s definition (in first-input key order), each key
paired with the union of its value lists over all inputs. -/
def mergedSubCatsForKey (c0 : DatasetCategories) (rest : List DatasetCategories)
    (key : String) : SubCatDict :=
  let d0 := (pyGet c0.init_sub_categories key).getD []
  let intersect_sub_cat_per_key :=
    ((pyKeys d0).filter (fun sk =>
      rest.all (fun c =>
        decide (sk ∈ pyKeys ((pyGet c.init_sub_categories key).getD []))))).foldl
      addIfAbsent []
  intersect_sub_cat_per_key.map (fun sk => (sk, unionVals (c0 :: rest) key sk))

/-- `get_merged_categories`: on an empty input, `categories[0]` raises `IndexError`.
Otherwise: stable de-duplicated union of `init_categories`; sub-category entries for
the intersection of the inputs' sub-category key sets, per key the intersection of
the sub-category-key sets with unioned value lists; the working and filtered views
are set to the set-union of the inputs' current and filtered views. -/
def get_merged_categories (l : List DatasetCategories) :
    Except PyError DatasetCategories :=
  match l with
  | [] => .error .indexError
  | c0 :: rest =>
    let all := c0 :: rest
    let init_categories :=
      (all.flatMap (fun c => c.init_categories)).foldl addIfAbsent []
    let intersect_sub_cat_keys :=
      ((pyKeys c0.init_sub_categories).filter (fun k =>
        rest.all (fun c => decide (k ∈ pyKeys c.init_sub_categories)))).foldl addIfAbsent []
    let intersect_init_sub_cat := intersect_sub_cat_keys.map (fun key =>
      (key, mergedSubCatsForKey c0 rest key))
    let categories_update :=
      (all.flatMap (fun c => getCategoriesList c false false)).foldl addIfAbsent []
    let categories_filtered :=
      (all.flatMap (fun c => getCategoriesList c false true)).foldl addIfAbsent []
    .ok { init_categories := init_categories
          init_sub_categories := intersect_init_sub_cat
          categories_update := categories_update
          cat_to_sub_cat := none
          categories_filter_update := some categories_filtered }

/-- Specification-side description of one substitution block: the chosen
sub-category's value list when the category has a definition containing the
chosen key (the category's own name when it is not listed in the mapping),
otherwise the single-element list containing the category itself. -/
def substBlock (isc : SubCats) (m : List (String × String)) (cat : String) : List String :=
  match pyGet isc cat with
  | some d => (pyGet d ((pyGet m cat).getD cat)).getD [cat]
  | none => [cat]

/-- Specification-side description of the `get_sub_categories` fallback search:
the category of the last entry of the substitution mapping whose chosen
sub-category key occurs among the keys of that category's definition. -/
def lastMatch (isc : SubCats) : List (String × String) → Option String
  | [] => none
  | kv :: rest =>
    match lastMatch isc rest with
    | some k => some k
    | none =>
      if kv.2 ∈ pyKeys ((pyGet isc kv.1).getD []) then some kv.1 else none

/-- Specification-side stable de-duplication: keep the first occurrence of every
element, dropping all later repetitions. -/
def stableDedup [DecidableEq α] : List α → List α
  | [] => []
  | x :: xs => x :: stableDedup (xs.filter (fun y => decide (y ≠ x)))
termination_by l => l.length
decreasing_by
  exact Nat.lt_succ_of_le (List.length_filter_le _ _)

/-- Decimal digits of a natural number, most significant first. -/
def natDigits (n : Nat) : List Char :=
  if n < 10 then [Nat.digitChar n]
  else natDigits (n / 10) ++ [Nat.digitChar (n % 10)]
termination_by n
decreasing_by
  exact Nat.div_lt_self (by omega) (by omega)

/-- Numeric value of a decimal digit character. -/
def charVal (c : Char) : Nat :=
  if c = '0' then 0 else if c = '1' then 1 else if c = '2' then 2 else
  if c = '3' then 3 else if c = '4' then 4 else if c = '5' then 5 else
  if c = '6' then 6 else if c = '7' then 7 else if c = '8' then 8 else 9

/-- Value of a most-significant-first decimal digit string. -/
def valDigits (l : List Char) : Nat :=
  l.foldl (fun acc c => 10 * acc + charVal c) 0

/-- Example registry from the specification: categories `cat1`, `cat2`, where `cat1`
has the sub-category `s` with values `a`, `b`. -/
def exampleRegistry : DatasetCategories :=
  mkDatasetCategories ["cat1", "cat2"] [("cat1", [("s", ["a", "b"])])]

/-- Registry whose single category `cat1` has a sub-category key equal to the
category's own name. -/
def selfKeyRegistry : DatasetCategories :=
  mkDatasetCategories ["cat1"] [("cat1", [("cat1", ["a", "b"])])]

/-- Merge example input A: categories `cat1`, `cat2` with `cat1:{s:[x,y]}`. -/
def registryA : DatasetCategories :=
  mkDatasetCategories ["cat1", "cat2"] [("cat1", [("s", ["x", "y"])])]

/-- Merge example input B: categories `cat2`, `cat3` and no sub-categories. -/
def registryB : DatasetCategories :=
  mkDatasetCategories ["cat2", "cat3"] []

section PyDictLemmas

variable [DecidableEq α] {d : List (α × β)} {k k' : α} {v : β}

theorem pyGet_pyInsert_self (d : List (α × β)) (k : α) (v : β) :
    pyGet (pyInsert d k v) k = some v := by
  induction d with
  | nil => simp [pyInsert, pyGet]
  | cons p rest ih =>
    by_cases h : p.1 = k <;> simp [pyInsert, pyGet, h, ih]

theorem pyGet_pyInsert_ne (d : List (α × β)) (h : k' ≠ k) (v : β) :
    pyGet (pyInsert d k v) k' = pyGet d k' := by
  induction d with
  | nil => simp [pyInsert, pyGet, Ne.symm h]
  | cons p rest ih =>
    by_cases hp : p.1 = k
    · simp [pyInsert, pyGet, hp, Ne.symm h]
    · by_cases hp' : p.1 = k' <;> simp [pyInsert, pyGet, hp, hp', h, ih]

theorem pyKeys_pyInsert (d : List (α × β)) (k : α) (v : β) :
    pyKeys (pyInsert d k v) = if k ∈ pyKeys d then pyKeys d else pyKeys d ++ [k] := by
  induction d with
  | nil => simp [pyInsert, pyKeys]
  | cons p rest ih =>
    by_cases h : p.1 = k
    · simp [pyInsert, pyKeys, h]
    · have hne : ¬ k = p.1 := fun hk => h hk.symm
      simp only [pyInsert, if_neg h, pyKeys, List.map_cons, List.mem_cons, hne,
        false_or] at ih ⊢
      rw [ih]
      by_cases hmem : k ∈ List.map Prod.fst rest <;> simp [hmem]

theorem mem_pyKeys_iff_isSome (d : List (α × β)) (k : α) :
    k ∈ pyKeys d ↔ (pyGet d k).isSome := by
  induction d with
  | nil => simp [pyKeys, pyGet]
  | cons p rest ih =>
    by_cases h : p.1 = k
    · simp [pyKeys, pyGet, h]
    · have hne : ¬ k = p.1 := fun hk => h hk.symm
      simp only [pyKeys, List.map_cons, List.mem_cons, hne, false_or, pyGet, if_neg h]
      simpa [pyKeys] using ih

theorem pyInsert_of_not_mem (d : List (α × β)) (h : k ∉ pyKeys d) (v : β) :
    pyInsert d k v = d ++ [(k, v)] := by
  induction d with
  | nil => simp [pyInsert]
  | cons p rest ih =>
    simp only [pyKeys, List.map_cons, List.mem_cons] at h
    push_neg at h
    have h1 : ¬ p.1 = k := fun hk => h.1 hk.symm
    simp [pyInsert, h1, ih (by simpa [pyKeys] using h.2)]

end PyDictLemmas

section FoldLemmas

variable [DecidableEq α]

theorem foldl_pyInsert_of_nodup (ps : List (α × β)) :
    ∀ acc : List (α × β), (pyKeys acc ++ ps.map Prod.fst).Nodup →
      ps.foldl (fun d p => pyInsert d p.1 p.2) acc = acc ++ ps := by
  induction ps with
  | nil => intro acc _; simp
  | cons p rest ih =>
    intro acc h
    rw [List.nodup_append] at h
    have hp : p.1 ∉ pyKeys acc := fun hmem =>
      h.2.2 hmem (List.mem_cons_self _ _)
    simp only [List.foldl_cons]
    rw [show pyInsert acc p.1 p.2 = acc ++ [p] by
      simpa using pyInsert_of_not_mem acc hp p.2]
    rw [ih (acc ++ [p])]
    · simp
    · have : pyKeys (acc ++ [p]) = pyKeys acc ++ [p.1] := by simp [pyKeys]
      rw [this, List.append_assoc]
      rw [List.nodup_append]
      refine ⟨h.1, ?_, ?_⟩
      · simpa using h.2.1
      · intro a ha hb
        exact h.2.2 ha (by simpa using hb)

theorem pyDictOfPairs_of_nodup (ps : List (α × β)) (h : (ps.map Prod.fst).Nodup) :
    pyDictOfPairs ps = ps := by
  simpa [pyDictOfPairs] using foldl_pyInsert_of_nodup ps [] (by simpa [pyKeys] using h)

theorem pyKeys_foldl_pyInsert (ps : List (α × β)) :
    ∀ acc, pyKeys (ps.foldl (fun d p => pyInsert d p.1 p.2) acc) =
      (ps.map Prod.fst).foldl addIfAbsent (pyKeys acc) := by
  induction ps with
  | nil => intro acc; rfl
  | cons p rest ih =>
    intro acc
    simp only [List.foldl_cons, List.map_cons]
    rw [ih]
    congr 1
    rw [pyKeys_pyInsert, addIfAbsent]

theorem pyKeys_pyDictOfPairs (ps : List (α × β)) :
    pyKeys (pyDictOfPairs ps) = (ps.map Prod.fst).foldl addIfAbsent [] := by
  simpa [pyKeys] using pyKeys_foldl_pyInsert ps []

theorem mem_foldl_addIfAbsent (l : List α) :
    ∀ (acc : List α) (x : α), x ∈ l.foldl addIfAbsent acc ↔ x ∈ acc ∨ x ∈ l := by
  induction l with
  | nil => simp
  | cons y ys ih =>
    intro acc x
    simp only [List.foldl_cons, ih, addIfAbsent]
    by_cases h : y ∈ acc
    · simp only [if_pos h, List.mem_cons]
      constructor
      · rintro (hx | hx)
        · exact Or.inl hx
        · exact Or.inr (Or.inr hx)
      · rintro (hx | rfl | hx)
        · exact Or.inl hx
        · exact Or.inl h
        · exact Or.inr hx
    · simp [if_neg h, List.mem_append, or_assoc]

theorem nodup_foldl_addIfAbsent (l : List α) :
    ∀ acc : List α, acc.Nodup → (l.foldl addIfAbsent acc).Nodup := by
  induction l with
  | nil => intro acc h; exact h
  | cons y ys ih =>
    intro acc h
    simp only [List.foldl_cons]
    apply ih
    rw [addIfAbsent]
    split
    · exact h
    · next hy =>
      rw [List.nodup_append]
      refine ⟨h, List.nodup_singleton y, fun a ha hb => ?_⟩
      have hay : a = y := by simpa using hb
      exact hy (hay ▸ ha)

theorem foldl_addIfAbsent_eq_stableDedup_filter (l : List α) :
    ∀ acc : List α,
      l.foldl addIfAbsent acc = acc ++ stableDedup (l.filter (fun y => decide (y ∉ acc))) := by
  induction l with
  | nil => intro acc; simp [stableDedup]
  | cons x xs ih =>
    intro acc
    by_cases hx : x ∈ acc
    · have hcons : (x :: xs).filter (fun y => decide (y ∉ acc)) =
          xs.filter (fun y => decide (y ∉ acc)) := by
        simp [List.filter_cons, hx]
      rw [hcons, List.foldl_cons, addIfAbsent, if_pos hx]
      exact ih acc
    · have hcons : (x :: xs).filter (fun y => decide (y ∉ acc)) =
          x :: xs.filter (fun y => decide (y ∉ acc)) := by
        simp [List.filter_cons, hx]
      have hff : xs.filter (fun y => decide (y ∉ acc ++ [x])) =
          (xs.filter (fun y => decide (y ∉ acc))).filter (fun y => decide (y ≠ x)) := by
        rw [List.filter_filter]
        apply List.filter_congr
        intro y _
        by_cases h1 : y ∈ acc <;> by_cases h2 : y = x <;> simp [h1, h2]
      rw [hcons, List.foldl_cons, addIfAbsent, if_neg hx, ih (acc ++ [x]), hff]
      conv_rhs => rw [stableDedup]
      simp

theorem foldl_addIfAbsent_nil (l : List α) :
    l.foldl addIfAbsent [] = stableDedup l := by
  simpa using foldl_addIfAbsent_eq_stableDedup_filter l []

theorem stableDedup_sublist (l : List α) : List.Sublist (stableDedup l) l := by
  induction l using stableDedup.induct with
  | case1 => rw [stableDedup]
  | case2 x xs ih =>
    rw [stableDedup]
    exact List.Sublist.cons₂ x (ih.trans (List.filter_sublist xs))

theorem mem_stableDedup (l : List α) : ∀ x : α, x ∈ stableDedup l ↔ x ∈ l := by
  induction l using stableDedup.induct with
  | case1 => intro x; rw [stableDedup]
  | case2 y ys ih =>
    intro x
    rw [stableDedup, List.mem_cons, ih x, List.mem_filter, List.mem_cons]
    by_cases hxy : x = y <;> simp [hxy]

theorem nodup_stableDedup (l : List α) : (stableDedup l).Nodup := by
  induction l using stableDedup.induct with
  | case1 => rw [stableDedup]; exact List.nodup_nil
  | case2 y ys ih =>
    rw [stableDedup, List.nodup_cons]
    refine ⟨fun hy => ?_, ih⟩
    have h1 := (mem_stableDedup _ y).mp hy
    rw [List.mem_filter] at h1
    simp at h1

theorem stableDedup_of_nodup (l : List α) : l.Nodup → stableDedup l = l := by
  induction l using stableDedup.induct with
  | case1 => intro _; rw [stableDedup]
  | case2 y ys ih =>
    intro h
    rw [List.nodup_cons] at h
    have hfilter : ys.filter (fun y' => decide (y' ≠ y)) = ys := by
      apply List.filter_eq_self.mpr
      intro a ha
      have hay : a ≠ y := fun hay => h.1 (hay ▸ ha)
      simp [hay]
    rw [hfilter] at ih
    rw [stableDedup, hfilter, ih h.2]

end FoldLemmas

section ReprInjective

theorem charVal_digitChar (d : Nat) (hd : d < 10) : charVal (Nat.digitChar d) = d := by
  interval_cases d <;> rfl

theorem valDigits_append (l : List Char) (c : Char) :
    valDigits (l ++ [c]) = 10 * valDigits l + charVal c := by
  simp [valDigits, List.foldl_append]

theorem valDigits_natDigits (n : Nat) : valDigits (natDigits n) = n := by
  induction n using natDigits.induct with
  | case1 n h =>
    rw [natDigits, if_pos h]
    simp [valDigits, charVal_digitChar n h]
  | case2 n h ih =>
    rw [natDigits, if_neg h]
    rw [valDigits_append, ih, charVal_digitChar (n % 10) (Nat.mod_lt _ (by omega))]
    omega

theorem natDigits_injective : Function.Injective natDigits := by
  intro a b h
  have ha := valDigits_natDigits a
  rw [h, valDigits_natDigits] at ha
  exact ha.symm

theorem toDigitsCore_eq (fuel : Nat) :
    ∀ (n : Nat) (acc : List Char), n < fuel →
      Nat.toDigitsCore 10 fuel n acc = natDigits n ++ acc := by
  induction fuel with
  | zero => intro n acc h; omega
  | succ f ih =>
    intro n acc h
    simp only [Nat.toDigitsCore]
    by_cases h10 : n / 10 = 0
    · rw [if_pos h10]
      have hn : n < 10 := by omega
      rw [natDigits, if_pos hn, Nat.mod_eq_of_lt hn]
      rfl
    · rw [if_neg h10]
      have hn : ¬ n < 10 := by omega
      have hdiv : n / 10 < f := by omega
      rw [ih (n / 10) _ hdiv]
      conv_rhs => rw [natDigits, if_neg hn]
      rw [List.append_assoc]
      rfl

theorem pyStr_injective : Function.Injective pyStr := by
  intro a b h
  apply natDigits_injective
  have ha : Nat.toDigits 10 a = natDigits a := by
    simpa using toDigitsCore_eq (a + 1) a [] (Nat.lt_succ_self a)
  have hb : Nat.toDigits 10 b = natDigits b := by
    simpa using toDigitsCore_eq (b + 1) b [] (Nat.lt_succ_self b)
  have h' : (Nat.toDigits 10 a).asString = (Nat.toDigits 10 b).asString := h
  rw [ha, hb] at h'
  simpa [List.asString] using congrArg String.data h'

theorem nodup_pyStr_range' (s n : Nat) : ((List.range' s n).map pyStr).Nodup :=
  (List.nodup_range' (s := s) (n := n)).map pyStr_injective

end ReprInjective

theorem count_filter_mem (l xs : List String) (c : String) :
    (l.filter (fun c' => decide (c' ∈ xs))).count c =
      if c ∈ xs then l.count c else 0 := by
  induction l with
  | nil => simp
  | cons a l ih =>
    by_cases hca : c = a
    · subst hca
      by_cases ha : c ∈ xs <;> simp [List.filter_cons, ha, ih]
    · by_cases ha : a ∈ xs <;> simp [List.filter_cons, ha, hca, ih]

theorem get_dict_false (l : List String) :
    get_dict l false 1 =
      ((List.range' 1 l.length).zip l).map (fun p => (pyStr p.1, p.2)) := by
  rw [get_dict]
  simp only [Bool.false_eq_true, if_false]
  apply pyDictOfPairs_of_nodup
  have hkeys : (((List.range' 1 l.length).zip l).map
      (fun p => (pyStr p.1, p.2))).map Prod.fst = (List.range' 1 l.length).map pyStr := by
    rw [List.map_map,
      show (Prod.fst ∘ fun p : Nat × String => (pyStr p.1, p.2)) = pyStr ∘ Prod.fst from rfl,
      ← List.map_map,
      List.map_fst_zip (List.range' 1 l.length) l (by simp)]
  rw [hkeys]
  exact nodup_pyStr_range' 1 l.length

/-- Claim C3: for every registry (whatever filtering or substitution state it is
in), `get_categories(as_dict=true, init=true)` returns the dict pairing the
strings `"1".."n"` (1-based, dense, gapless, in order) with `init_categories` in
original order, and `get_categories(as_dict=false, init=true)` returns
`init_categories` verbatim; the `filtered` flag is ignored when `init` is true. -/
theorem C3_get_categories_init (r : DatasetCategories) (filtered : Bool) :
    getCategoriesDict r false true filtered =
      ((List.range' 1 r.init_categories.length).zip r.init_categories).map
        (fun p => (pyStr p.1, p.2)) ∧
    getCategoriesList r true filtered = r.init_categories := by
  have hl : getCategoriesList r true filtered = r.init_categories := by
    rw [getCategoriesList, if_pos rfl]
  refine ⟨?_, hl⟩
  rw [getCategoriesDict, hl, get_dict_false]

/-- Claim C4: `filter_categories(X)` stores as `categories_filter_update` exactly
the subsequence of the current `categories_update` whose names are in `X`
(order-preserving, only names of `X`, with multiplicities preserved); it leaves
`categories_update`, `init_categories`, `init_sub_categories` and
`cat_to_sub_cat` unchanged; repeating the call with the same `X` yields the same
result, and a new call overwrites (not accumulates) the previous filter. -/
theorem C4_filter_categories_spec (r : DatasetCategories) (xs : List String) :
    ∃ f, (filter_categories r xs).categories_filter_update = some f ∧
      List.Sublist f r.categories_update ∧
      (∀ c, c ∈ f ↔ c ∈ r.categories_update ∧ c ∈ xs) ∧
      (∀ c, f.count c = if c ∈ xs then r.categories_update.count c else 0) ∧
      (filter_categories r xs).categories_update = r.categories_update ∧
      (filter_categories r xs).init_categories = r.init_categories ∧
      (filter_categories r xs).init_sub_categories = r.init_sub_categories ∧
      (filter_categories r xs).cat_to_sub_cat = r.cat_to_sub_cat ∧
      (filter_categories (filter_categories r xs) xs).categories_filter_update =
        (filter_categories r xs).categories_filter_update ∧
      ∀ ys, (filter_categories (filter_categories r ys) xs).categories_filter_update =
        (filter_categories r xs).categories_filter_update := by
  refine ⟨r.categories_update.filter (fun c => decide (c ∈ xs)), rfl,
    List.filter_sublist _, ?_, fun c => count_filter_mem _ xs c,
    rfl, rfl, rfl, rfl, rfl, fun ys => rfl⟩
  intro c
  simp [List.mem_filter]

/-- Claim C5, counterexample: on the registry with categories `cat1`, `cat2`,
calling `filter_categories(["cat1"])` and then `set_cat_to_sub_cat({})` leaves
`is_filtered()` true and the stale pre-substitution filtered view `["cat1"]` in
place, refuting the claim that `is_filtered()` returns false when filtering
happened only before the substitution. -/
theorem C5_counterexample :
    is_filtered (set_cat_to_sub_cat
      (filter_categories (mkDatasetCategories ["cat1", "cat2"] []) ["cat1"]) []) = true ∧
    (set_cat_to_sub_cat
      (filter_categories (mkDatasetCategories ["cat1", "cat2"] []) ["cat1"])
      []).categories_filter_update = some ["cat1"] := by
  exact ⟨rfl, rfl⟩

/-- Claim C5, amended: `set_cat_to_sub_cat` does not clear the filter state.
`categories_filter_update` and hence `is_filtered()` are unchanged by a
substitution call, so a filter set before the substitution keeps `is_filtered()`
true and its stale list remains stored. -/
theorem C5_substitution_keeps_filter_state (r : DatasetCategories)
    (m : List (String × String)) :
    (set_cat_to_sub_cat r m).categories_filter_update = r.categories_filter_update ∧
    is_filtered (set_cat_to_sub_cat r m) = is_filtered r := by
  exact ⟨rfl, rfl⟩

/-- Claim C6, counterexample: constructing a registry whose sub-category map
references a category (`nonexistent`) absent from `init_categories` and contains
an empty value list succeeds and yields an ordinary registry — no
`ConfigurationError` is raised anywhere in the constructor. -/
theorem C6_counterexample :
    mkDatasetCategories ["cat1"] [("nonexistent", [("s", [])])] =
      { init_categories := ["cat1"]
        init_sub_categories := [("nonexistent", [("s", [])])]
        categories_update := ["cat1"]
        cat_to_sub_cat := none
        categories_filter_update := none } := by
  exact rfl

/-- Claim C6, amended: construction performs no validation and never fails; for
every input, the new registry stores the arguments unchanged, `categories_update`
equals `init_categories`, no substitution is active and no filter is set. -/
theorem C6_construction_never_fails (ic : List String) (isc : SubCats) :
    (mkDatasetCategories ic isc).categories_update = ic ∧
    (mkDatasetCategories ic isc).init_categories = ic ∧
    (mkDatasetCategories ic isc).init_sub_categories = isc ∧
    (mkDatasetCategories ic isc).cat_to_sub_cat = none ∧
    is_filtered (mkDatasetCategories ic isc) = false := by
  exact ⟨rfl, rfl, rfl, rfl, rfl⟩

/-- Claim C7, counterexample: `get_merged_categories` on zero inputs fails with
`IndexError` (the unguarded `categories[0]` access), which is not the
`InvalidRequestError` the claim names. -/
theorem C7_counterexample :
    get_merged_categories [] = Except.error PyError.indexError ∧
    (Except.error PyError.indexError : Except PyError DatasetCategories) ≠
      Except.error PyError.invalidRequestError := by
  refine ⟨rfl, ?_⟩
  intro h
  cases h

/-- Claim C7, amended: merging zero registries fails fast — it raises an uncaught
`IndexError` from indexing the empty input tuple, rather than
`InvalidRequestError` — and never returns a registry. -/
theorem C7_empty_merge_fails :
    get_merged_categories [] = Except.error PyError.indexError ∧
    ∀ r : DatasetCategories, get_merged_categories [] ≠ Except.ok r := by
  refine ⟨rfl, fun r h => ?_⟩
  rw [get_merged_categories] at h
  cases h

theorem substBlock_eq (isc : SubCats) (m : List (String × String)) (cat : String) :
    (pyGet ((pyGet isc cat).getD [(cat, [cat])]) ((pyGet m cat).getD cat)).getD [cat]
      = substBlock isc m cat := by
  rw [substBlock]
  cases hc : pyGet isc cat with
  | some d => rfl
  | none =>
    cases hm : pyGet m cat with
    | none => simp [pyGet]
    | some v =>
      by_cases hv : cat = v <;> simp [pyGet, hv]

theorem keys_of_name_keyed_dict (l : List String) (h : l.Nodup) :
    pyKeys (get_dict l true 1) = l := by
  show pyKeys (pyDictOfPairs
    (((List.range' 1 l.length).zip l).map (fun p => (p.2, pyStr p.1)))) = l
  rw [pyKeys_pyDictOfPairs]
  have hsnd : (((List.range' 1 l.length).zip l).map
      (fun p => (p.2, pyStr p.1))).map Prod.fst = l := by
    rw [List.map_map,
      show (Prod.fst ∘ fun p : Nat × String => (p.2, pyStr p.1)) = Prod.snd from rfl]
    exact List.map_snd_zip (List.range' 1 l.length) l (by simp)
  rw [hsnd, foldl_addIfAbsent_nil, stableDedup_of_nodup l h]

/-- Claim C1, counterexample: on the registry `init_categories=["cat1"]`,
`init_sub_categories={"cat1":{"cat1":["a","b"]}}`, the claim predicts that
`set_cat_to_sub_cat({})` keeps the unlisted category as the single-element block
`["cat1"]`; the code instead falls back to the category's own name as sub-category
lookup key, finds the entry `"cat1"` and substitutes its value list, giving
`categories_update == ["a","b"]`. -/
theorem C1_counterexample :
    (set_cat_to_sub_cat selfKeyRegistry []).categories_update = ["a", "b"] ∧
    (set_cat_to_sub_cat selfKeyRegistry []).categories_update ≠ ["cat1"] := by
  have h1 : (set_cat_to_sub_cat selfKeyRegistry []).categories_update = ["a", "b"] := rfl
  refine ⟨h1, ?_⟩
  rw [h1]
  decide

/-- Claim C1, amended: for every registry with duplicate-free `init_categories`
and every mapping `m`, `set_cat_to_sub_cat(m)` recomputes `categories_update`
from `init_categories` (any prior substitution or filter result is ignored) as
the concatenation, in `init_categories` order, of per-category blocks, and
stores `m` as the active `cat_to_sub_cat`.  The block of a category is
`init_sub_categories[cat][k]` where `k` is `m[cat]` when `cat` is listed in `m`
and `cat`'s own name otherwise, falling back to the single-element list `[cat]`
when that entry does not exist — so an unlisted category whose definition
contains a sub-category key equal to the category's own name is substituted
rather than kept. -/
theorem C1_set_cat_to_sub_cat_spec (r : DatasetCategories)
    (m : List (String × String)) (h : r.init_categories.Nodup) :
    (set_cat_to_sub_cat r m).categories_update =
      r.init_categories.flatMap (substBlock r.init_sub_categories m) ∧
    (set_cat_to_sub_cat r m).cat_to_sub_cat = some m := by
  refine ⟨?_, rfl⟩
  show ((pyKeys (getCategoriesDict { r with categories_update := r.init_categories }
      true false false)).map
      (fun cat => (pyGet ((pyGet r.init_sub_categories cat).getD [(cat, [cat])])
        ((pyGet m cat).getD cat)).getD [cat])).flatten =
    r.init_categories.flatMap (substBlock r.init_sub_categories m)
  have hkeys : pyKeys (getCategoriesDict { r with categories_update := r.init_categories }
      true false false) = r.init_categories := by
    rw [getCategoriesDict]
    exact keys_of_name_keyed_dict r.init_categories h
  rw [hkeys, List.flatMap_def]
  congr 1
  exact List.map_congr_left (fun cat _ => substBlock_eq r.init_sub_categories m cat)

/-- Claim C1 witness: the amended theorem at the specification's example registry
with mapping `{cat1: s}` produces `categories_update == ["a","b","cat2"]`, and the
name-keyed category dict is `{"a":"1","b":"2","cat2":"3"}`. -/
theorem C1_witness :
    exampleRegistry.init_categories.Nodup ∧
    (set_cat_to_sub_cat exampleRegistry [("cat1", "s")]).categories_update =
      ["a", "b", "cat2"] ∧
    (set_cat_to_sub_cat exampleRegistry [("cat1", "s")]).cat_to_sub_cat =
      some [("cat1", "s")] ∧
    getCategoriesDict (set_cat_to_sub_cat exampleRegistry [("cat1", "s")])
      true false false = [("a", "1"), ("b", "2"), ("cat2", "3")] := by
  have hnd : exampleRegistry.init_categories.Nodup := by decide
  have h := C1_set_cat_to_sub_cat_spec exampleRegistry [("cat1", "s")] hnd
  refine ⟨hnd, ?_, h.2, ?_⟩
  · rw [h.1]
    rfl
  · rfl

theorem innerScan_error_keyError (r : DatasetCategories) (cat : String) :
    ∀ (m : List (String × String)) (acc : List (String × List String)) (e : PyError),
      innerScan r cat m acc = .error e → ∃ k, e = PyError.keyError k := by
  intro m
  induction m with
  | nil =>
    intro acc e h
    simp [innerScan] at h
  | cons kv rest ih =>
    intro acc e h
    rw [innerScan] at h
    cases hp : pyGet r.init_sub_categories kv.1 with
    | none =>
      rw [hp] at h
      injection h with h'
      exact ⟨kv.1, h'.symm⟩
    | some possible =>
      rw [hp] at h
      exact ih _ e h

/-- Claim C9: `get_sub_categories` raises the assertion error with message
`"<name> not in categories, maybe has been replaced with sub category"` exactly
when the requested name is not in the current category view (the filtered view
when a filter is active, otherwise the current unfiltered view); the error
propagates as the overall result rather than being swallowed. -/
theorem C9_get_sub_categories_assert (r : DatasetCategories) (c : String) :
    get_sub_categories r [c] =
        Except.error (PyError.assertionError
          (c ++ " not in categories, maybe has been replaced with sub category")) ↔
      c ∉ getCategoriesList r false true := by
  constructor
  · intro heq hmem
    rw [get_sub_categories, subCatLoop, if_pos hmem] at heq
    split at heq
    · simp [subCatLoop] at heq
    · split at heq
      · split at heq
        · simp [subCatLoop] at heq
        · next e hscan =>
            rcases innerScan_error_keyError r c _ _ e hscan with ⟨k, rfl⟩
            simp at heq
      · simp [subCatLoop] at heq
  · intro h
    rw [get_sub_categories, subCatLoop, if_neg h]

/-- Claim C9 witness: querying the name `zzz`, absent from the example registry's
view, produces exactly the assertion error. -/
theorem C9_witness :
    get_sub_categories exampleRegistry ["zzz"] =
      Except.error (PyError.assertionError
        "zzz not in categories, maybe has been replaced with sub category") :=
  (C9_get_sub_categories_assert exampleRegistry "zzz").mpr (by decide)

theorem pyInsert_pyInsert [DecidableEq α] (d : List (α × β)) (k : α) (v w : β) :
    pyInsert (pyInsert d k v) k w = pyInsert d k w := by
  induction d with
  | nil => simp [pyInsert]
  | cons p rest ih =>
    by_cases h : p.1 = k
    · simp [pyInsert, h]
    · simp [pyInsert, h, ih]

theorem foldl_insert_if (ks : List String) (v c : String) (w : List String) :
    ∀ acc : List (String × List String),
      ks.foldl (fun a2 pos => if pos = v then pyInsert a2 c w else a2) acc =
        if v ∈ ks then pyInsert acc c w else acc := by
  induction ks with
  | nil => intro acc; simp
  | cons k ks ih =>
    intro acc
    by_cases hk : k = v
    · subst hk
      simp only [List.foldl_cons, if_pos rfl, List.mem_cons, true_or, if_pos]
      rw [ih (pyInsert acc c w)]
      split
      · exact pyInsert_pyInsert acc c w w
      · rfl
    · simp only [List.foldl_cons, if_neg hk, List.mem_cons]
      rw [ih acc]
      have : (v = k ∨ v ∈ ks) ↔ v ∈ ks := by
        constructor
        · rintro (rfl | hv)
          · exact absurd rfl hk
          · exact hv
        · exact Or.inr
      simp only [this]

theorem innerScan_result (r : DatasetCategories) (c : String) :
    ∀ (m : List (String × String)) (acc : List (String × List String)),
      (∀ kv ∈ m, (pyGet r.init_sub_categories kv.1).isSome) →
      innerScan r c m acc = .ok (
        match lastMatch r.init_sub_categories m with
        | some k =>
            pyInsert acc c ((pyGet ((pyGet r.init_sub_categories k).getD []) c).getD [])
        | none => acc) := by
  intro m
  induction m with
  | nil =>
    intro acc _
    rfl
  | cons kv rest ih =>
    intro acc hkeys
    have hkv : (pyGet r.init_sub_categories kv.1).isSome :=
      hkeys kv (List.mem_cons_self _ _)
    rcases Option.isSome_iff_exists.mp hkv with ⟨possible, hp⟩
    simp only [innerScan, hp]
    rw [foldl_insert_if (pyKeys possible) kv.2 c ((pyGet possible c).getD [])]
    rw [ih _ (fun kv' hkv' => hkeys kv' (List.mem_cons_of_mem _ hkv'))]
    rw [lastMatch]
    cases hlast : lastMatch r.init_sub_categories rest with
    | some k =>
      simp only [hlast]
      congr 1
      split
      · exact pyInsert_pyInsert acc c _ _
      · rfl
    | none =>
      simp only [hlast, hp, Option.getD_some]
      by_cases hmem : kv.2 ∈ pyKeys possible
      · simp only [if_pos hmem, hp, Option.getD_some]
      · simp only [if_neg hmem]

/-- Claim C8: for every registry with a stored substitution mapping all of whose
referenced categories have sub-category definitions, and every requested name in
the current view without its own entry in `init_sub_categories`, the result of
`get_sub_categories` for that name is determined by scanning the mapping for
entries whose chosen sub-category key occurs in their category's definition: if
some entry matches (the last one wins), the requested name is mapped to that
original category's sub-category-value list looked up under the requested name's
key — the empty list when no entry for that key exists — and when no entry of
the mapping matches, the requested name receives no entry at all. -/
theorem C8_get_sub_categories_fallback (r : DatasetCategories)
    (m : List (String × String)) (c : String)
    (hm : r.cat_to_sub_cat = some m)
    (hkeys : ∀ kv ∈ m, (pyGet r.init_sub_categories kv.1).isSome)
    (hview : c ∈ getCategoriesList r false true)
    (hown : pyGet r.init_sub_categories c = none) :
    get_sub_categories r [c] = Except.ok (
      match lastMatch r.init_sub_categories m with
      | some k => [(c, (pyGet ((pyGet r.init_sub_categories k).getD []) c).getD [])]
      | none => []) := by
  rw [get_sub_categories]
  simp only [subCatLoop, if_pos hview, hown, hm]
  rw [innerScan_result r c m [] hkeys]
  cases hlast : lastMatch r.init_sub_categories m with
  | some k => simp only [hlast]; rfl
  | none => simp only [hlast]

/-- Claim C8 witness: after `set_cat_to_sub_cat({cat1: s})` on the example
registry, querying the promoted value `a` (no entry of its own) matches the
mapping entry `(cat1, s)` and yields the empty list, since `a` is not a
sub-category key of `cat1`. -/
theorem C8_witness :
    (set_cat_to_sub_cat exampleRegistry [("cat1", "s")]).cat_to_sub_cat =
      some [("cat1", "s")] ∧
    "a" ∈ getCategoriesList (set_cat_to_sub_cat exampleRegistry [("cat1", "s")])
      false true ∧
    pyGet (set_cat_to_sub_cat exampleRegistry
      [("cat1", "s")]).init_sub_categories "a" = none ∧
    get_sub_categories (set_cat_to_sub_cat exampleRegistry [("cat1", "s")]) ["a"] =
      Except.ok [("a", [])] := by
  refine ⟨rfl, by decide, rfl, ?_⟩
  have h := C8_get_sub_categories_fallback
    (set_cat_to_sub_cat exampleRegistry [("cat1", "s")]) [("cat1", "s")] "a"
    rfl (by decide) (by decide) rfl
  rw [h]
  rfl

theorem pyGet_map_pair (l : List String) (f : String → γ) (k : String) :
    pyGet (l.map (fun x => (x, f x))) k = if k ∈ l then some (f k) else none := by
  induction l with
  | nil => simp [pyGet]
  | cons a l ih =>
    by_cases ha : a = k
    · subst ha
      simp [pyGet]
    · have hka : ¬ k = a := fun hk => ha hk.symm
      simp [pyGet, ha, hka, ih]

/-- Claim C10: every merge of a non-empty input list produces a registry that
reports `is_filtered() == true` (its filtered view is pre-set to the union of the
inputs' filtered-or-current views even when no input was filtered) and has
`cat_to_sub_cat == None`, hence `is_cat_to_sub_cat() == false`, regardless of any
substitutions active on the inputs. -/
theorem C10_merged_is_filtered_no_substitution (c0 : DatasetCategories)
    (rest : List DatasetCategories) :
    ∃ mreg, get_merged_categories (c0 :: rest) = Except.ok mreg ∧
      is_filtered mreg = true ∧
      mreg.cat_to_sub_cat = none ∧
      is_cat_to_sub_cat mreg = false ∧
      ∃ f, mreg.categories_filter_update = some f ∧
        ∀ x, x ∈ f ↔ ∃ cObj ∈ c0 :: rest, x ∈ getCategoriesList cObj false true := by
  refine ⟨_, rfl, rfl, rfl, rfl, _, rfl, ?_⟩
  intro x
  rw [mem_foldl_addIfAbsent]
  simp [List.mem_flatMap]

/-- Claim C2: for every non-empty input list, the merged registry's
`init_categories` is the stable first-appearance de-duplication of the inputs'
`init_categories` concatenated in input order (duplicate-free, a subsequence of
the concatenation, containing exactly the union); its sub-category map has an
entry exactly for categories having a sub-category definition in every input;
within such an entry, a sub-category key survives exactly when it is present in
that category's definition in every input, and its value list contains exactly
the union of that sub-category's value lists over all inputs.  In particular,
merging the example registries A and B gives `init_categories ==
["cat1","cat2","cat3"]` and an empty merged sub-category map. -/
theorem C2_get_merged_categories_spec :
    (∀ (c0 : DatasetCategories) (rest : List DatasetCategories),
      ∃ mreg, get_merged_categories (c0 :: rest) = Except.ok mreg ∧
        mreg.init_categories =
          stableDedup ((c0 :: rest).flatMap (fun c => c.init_categories)) ∧
        mreg.init_categories.Nodup ∧
        (∀ x, x ∈ mreg.init_categories ↔
          ∃ cObj ∈ c0 :: rest, x ∈ cObj.init_categories) ∧
        List.Sublist mreg.init_categories
          ((c0 :: rest).flatMap (fun c => c.init_categories)) ∧
        (∀ k, (pyGet mreg.init_sub_categories k).isSome ↔
          ∀ cObj ∈ c0 :: rest, k ∈ pyKeys cObj.init_sub_categories) ∧
        (∀ k d, pyGet mreg.init_sub_categories k = some d →
          ∀ sk, (pyGet d sk).isSome ↔
            ∀ cObj ∈ c0 :: rest,
              sk ∈ pyKeys ((pyGet cObj.init_sub_categories k).getD [])) ∧
        (∀ k d sk vs, pyGet mreg.init_sub_categories k = some d →
          pyGet d sk = some vs →
          ∀ v, v ∈ vs ↔ ∃ cObj ∈ c0 :: rest,
            v ∈ (pyGet ((pyGet cObj.init_sub_categories k).getD []) sk).getD [])) ∧
    (∃ mAB, get_merged_categories [registryA, registryB] = Except.ok mAB ∧
      mAB.init_categories = ["cat1", "cat2", "cat3"] ∧
      mAB.init_sub_categories = []) := by
  constructor
  · intro c0 rest
    have hmemInter : ∀ k : String,
        k ∈ ((pyKeys c0.init_sub_categories).filter (fun k' =>
            rest.all (fun c => decide (k' ∈ pyKeys c.init_sub_categories)))).foldl
            addIfAbsent [] ↔
          (k ∈ pyKeys c0.init_sub_categories ∧
            ∀ c ∈ rest, k ∈ pyKeys c.init_sub_categories) := by
      intro k
      rw [mem_foldl_addIfAbsent, List.mem_filter]
      simp [List.all_eq_true]
    have hmemInterSub : ∀ (k sk : String),
        sk ∈ ((pyKeys ((pyGet c0.init_sub_categories k).getD [])).filter (fun sk' =>
            rest.all (fun c =>
              decide (sk' ∈ pyKeys ((pyGet c.init_sub_categories k).getD []))))).foldl
            addIfAbsent [] ↔
          (sk ∈ pyKeys ((pyGet c0.init_sub_categories k).getD []) ∧
            ∀ c ∈ rest, sk ∈ pyKeys ((pyGet c.init_sub_categories k).getD [])) := by
      intro k sk
      rw [mem_foldl_addIfAbsent, List.mem_filter]
      simp [List.all_eq_true]
    refine ⟨_, rfl, ?_, ?_, ?_, ?_, ?_, ?_, ?_⟩
    · exact foldl_addIfAbsent_nil _
    · rw [foldl_addIfAbsent_nil]
      exact nodup_stableDedup _
    · intro x
      rw [mem_foldl_addIfAbsent]
      simp [List.mem_flatMap]
    · rw [foldl_addIfAbsent_nil]
      exact stableDedup_sublist _
    · intro k
      rw [pyGet_map_pair]
      split
      · next hk =>
        simp only [Option.isSome_some, true_iff]
        have h2 := (hmemInter k).mp hk
        intro cObj hc
        rcases List.mem_cons.mp hc with rfl | hc
        · exact h2.1
        · exact h2.2 cObj hc
      · next hk =>
        simp only [Option.isSome_none, Bool.false_eq_true, false_iff]
        intro hall
        exact hk ((hmemInter k).mpr
          ⟨hall c0 (List.mem_cons_self _ _),
            fun c hc => hall c (List.mem_cons_of_mem _ hc)⟩)
    · intro k d hd sk
      rw [pyGet_map_pair] at hd
      split at hd
      · next hk =>
        injection hd with hd'
        subst hd'
        rw [mergedSubCatsForKey]
        rw [pyGet_map_pair]
        split
        · next hsk =>
          simp only [Option.isSome_some, true_iff]
          have h2 := (hmemInterSub k sk).mp hsk
          intro cObj hc
          rcases List.mem_cons.mp hc with rfl | hc
          · exact h2.1
          · exact h2.2 cObj hc
        · next hsk =>
          simp only [Option.isSome_none, Bool.false_eq_true, false_iff]
          intro hall
          exact hsk ((hmemInterSub k sk).mpr
            ⟨hall c0 (List.mem_cons_self _ _),
              fun c hc => hall c (List.mem_cons_of_mem _ hc)⟩)
      · exact absurd hd (by simp)
    · intro k d sk vs hd hsk v
      rw [pyGet_map_pair] at hd
      split at hd
      · next hk =>
        injection hd with hd'
        subst hd'
        rw [mergedSubCatsForKey, pyGet_map_pair] at hsk
        split at hsk
        · next hsk' =>
          injection hsk with hvs
          subst hvs
          rw [unionVals, mem_foldl_addIfAbsent]
          simp [List.mem_flatMap]
        · exact absurd hsk (by simp)
      · exact absurd hd (by simp)
  · refine ⟨_, rfl, rfl, rfl⟩

end DeepDoctection
